import Mathlib

/-!
Shallow embedding of the some6502 library (src/lib.rs): the status register
flag masks, the register file, the derived addressing-mode operations of the
MemoryBus trait, and the ADC instruction family of the InstructionExecution
trait.  Machine bytes are Nat values below 256 and 16-bit words are Nat
values below 65536; every wraparound of the Rust code appears as an explicit
`% 256`, `% 65536` or `&&&` at the same place.
-/

namespace Some6502

/-- The negative sign for a 2's complement, 8-bit integer (const NEGATIVE_SIGN_U8). -/
def NEGATIVE_SIGN_U8 : Nat := 0b10000000

/-- Bit mask of StatusRegister::CARRY. -/
def CARRY : Nat := 0b00000001

/-- Bit mask of StatusRegister::ZERO. -/
def ZERO : Nat := 0b00000010

/-- Bit mask of StatusRegister::INTERRUPT. -/
def INTERRUPT : Nat := 0b00000100

/-- Bit mask of StatusRegister::DECIMAL. -/
def DECIMAL : Nat := 0b00001000

/-- Bit mask of StatusRegister::B_FLAG (two bits). -/
def B_FLAG : Nat := 0b00110000

/-- Bit mask of StatusRegister::OVERFLOW. -/
def OVERFLOW : Nat := 0b01000000

/-- Bit mask of StatusRegister::NEGATIVE (equal to NEGATIVE_SIGN_U8). -/
def NEGATIVE : Nat := NEGATIVE_SIGN_U8

/-- The bitflags `set` operation on the 8-bit status register: insert the mask
when the condition holds, otherwise remove it (bitwise and with the 8-bit
complement of the mask, which is what `bits &= !other.bits` does on a u8). -/
def setFlag (flags mask : Nat) (value : Bool) : Nat :=
  if value then flags ||| mask else flags &&& (255 ^^^ mask)

/-- The bitflags `contains` operation: every bit of the mask is present. -/
def hasFlag (flags mask : Nat) : Bool := flags &&& mask == mask

/-- The necessary registers for any 6502 (struct Registers).  Fields `a`, `x`,
`y` and `flags` are u8 values, `pc` is a u16 value. -/
structure Registers where
  a : Nat
  x : Nat
  y : Nat
  flags : Nat
  pc : Nat
deriving DecidableEq

/-- Contents of the 16-bit memory bus: what an implementation of the MemoryBus
trait would return for each address. -/
abbrev Mem := Nat → Nat

/-- The abstract trait method `read`, which an implementation must provide.
Its return type is u8, so whatever the implementation stores, the value read
is a byte; the embedding records that by reducing modulo 256. -/
def read (m : Mem) (address : Nat) : Nat := m address % 256

/-- The u16::from_le_bytes combination of two bytes. -/
def u16_from_le_bytes (lo hi : Nat) : Nat := lo + 256 * hi

/-- Absolute indexed mode (fn abs_idx): `address.overflowing_add(idx as u16).0`,
a wrapping 16-bit addition.  The method takes &self but never uses the memory. -/
def abs_idx (_m : Mem) (address idx : Nat) : Nat := (address + idx) % 65536

/-- Absolute indirect mode (fn abs_indirect): the high-byte address is the
start of the page when the low byte of `address` is 0xff, otherwise
`address + 1` (an unchecked u16 addition in the source). -/
def abs_indirect (m : Mem) (address : Nat) : Nat :=
  let hi_addr := if address &&& 0xff = 0xff then address &&& 0xff00 else address + 1
  let lo := read m address
  let hi := read m hi_addr
  u16_from_le_bytes lo hi

/-- X-Indexed, Zero-Page Indirect mode (fn indirect_x): the pointer location is
`address.overflowing_add(x).0`, the two pointer bytes are read at that u8
location and at its wrapping successor, both cast to u16. -/
def indirect_x (m : Mem) (address x : Nat) : Nat :=
  let address := (address + x) % 256
  let lo := read m address
  let hi := read m ((address + 1) % 256)
  u16_from_le_bytes lo hi

/-- Zero-Page Indirect, Y-Indexed mode (fn indirect_y): the low pointer byte is
added to `y` with `overflowing_add`, giving a sum and a carry; the high
pointer byte, read at the wrapping successor location, is incremented with
8-bit wraparound when the carry is set. -/
def indirect_y (m : Mem) (address y : Nat) : Nat :=
  let sum := read m address + y
  let lo := sum % 256
  let hi :=
    let value := read m ((address + 1) % 256)
    if 256 ≤ sum then (value + 1) % 256 else value
  u16_from_le_bytes lo hi

/-- Zero Page mode (fn zero_idx): `address.overflowing_add(idx).0 as u16`,
a wrapping 8-bit addition cast to u16. -/
def zero_idx (_m : Mem) (address idx : Nat) : Nat := (address + idx) % 256

/-- Common implementation for the ADC instruction (fn adc_common), acting on
the register file the trait method mutates.  The unsigned 32-bit sum is
`a + value + (flags & CARRY)`; CARRY is set from `result > u8::MAX`, the sum
is truncated with `& 255`, OVERFLOW from the sign-bit test on the original
accumulator, NEGATIVE from bit 7 of the result, ZERO from `result == 0`, and
the accumulator receives the truncated result. -/
def adc_common (r : Registers) (value : Nat) : Registers :=
  let result32 := r.a + value + (r.flags &&& CARRY)
  let result := result32 &&& 255
  let overflow := ((r.a ^^^ value) &&& NEGATIVE_SIGN_U8 == 0)
      && ((r.a ^^^ result) &&& NEGATIVE_SIGN_U8 == NEGATIVE_SIGN_U8)
  { r with
    a := result
    flags :=
      setFlag
        (setFlag
          (setFlag
            (setFlag r.flags CARRY (decide (255 < result32)))
            OVERFLOW overflow)
          NEGATIVE (result &&& NEGATIVE_SIGN_U8 == NEGATIVE_SIGN_U8))
        ZERO (result == 0) }

/-- An execution engine: the registers and the memory bus returned by the two
accessor methods of the InstructionExecution trait. -/
structure Machine where
  regs : Registers
  mem : Mem

/-- The trait method adc_common lifted to the whole engine: it only touches
the register file. -/
def Machine.adc_common (s : Machine) (value : Nat) : Machine :=
  { s with regs := Some6502.adc_common s.regs value }

/-- ADC immediate (fn adc_imm). -/
def Machine.adc_imm (s : Machine) (value : Nat) : Machine :=
  Machine.adc_common s value

/-- ADC zero page (fn adc_zero). -/
def Machine.adc_zero (s : Machine) (address : Nat) : Machine :=
  let value := read s.mem address
  Machine.adc_common s value

/-- ADC zero page,X (fn adc_zero_x). -/
def Machine.adc_zero_x (s : Machine) (address : Nat) : Machine :=
  let x := s.regs.x
  let zero_addr := zero_idx s.mem address x
  let value := read s.mem zero_addr
  Machine.adc_common s value

/-- ADC absolute (fn adc_abs). -/
def Machine.adc_abs (s : Machine) (address : Nat) : Machine :=
  let value := read s.mem address
  Machine.adc_common s value

/-- ADC absolute,X (fn adc_abs_x). -/
def Machine.adc_abs_x (s : Machine) (address : Nat) : Machine :=
  let x := s.regs.x
  let abs_addr := abs_idx s.mem address x
  let value := read s.mem abs_addr
  Machine.adc_common s value

/-- ADC absolute,Y (fn adc_abs_y). -/
def Machine.adc_abs_y (s : Machine) (address : Nat) : Machine :=
  let y := s.regs.y
  let abs_addr := abs_idx s.mem address y
  let value := read s.mem abs_addr
  Machine.adc_common s value

/-- ADC indirect,X (fn adc_ind_x). -/
def Machine.adc_ind_x (s : Machine) (address : Nat) : Machine :=
  let x := s.regs.x
  let indirect_addr := indirect_x s.mem address x
  let value := read s.mem indirect_addr
  Machine.adc_common s value

/-- ADC indirect,Y (fn adc_ind_y). -/
def Machine.adc_ind_y (s : Machine) (address : Nat) : Machine :=
  let y := s.regs.y
  let indirect_addr := indirect_y s.mem address y
  let value := read s.mem indirect_addr
  Machine.adc_common s value

/-- Value of a byte as a two's-complement signed integer, the spec-side
reading used when talking about signed overflow. -/
def toSigned (x : Nat) : Int := if x < 128 then (x : Int) else (x : Int) - 256

/-- Frame property on register files: the X index, the Y index, the program
counter and the INTERRUPT, DECIMAL and B_FLAG status bits are unchanged. -/
def FramePreserved (r r2 : Registers) : Prop :=
  r2.x = r.x ∧ r2.y = r.y ∧ r2.pc = r.pc ∧
  r2.flags &&& INTERRUPT = r.flags &&& INTERRUPT ∧
  r2.flags &&& DECIMAL = r.flags &&& DECIMAL ∧
  r2.flags &&& B_FLAG = r.flags &&& B_FLAG

/-- Frame property on whole engines: registers framed as above and the memory
contents untouched (no write is ever issued). -/
def MachineFramePreserved (s s2 : Machine) : Prop :=
  FramePreserved s.regs s2.regs ∧ s2.mem = s.mem

/-- All-zero memory, used for concrete instances. -/
def mem0 : Mem := fun _ => 0

/-- Memory fixture of the spec for the no-wrap abs_indirect case. -/
def mem1 : Mem := fun a => if a = 0xff01 then 0xab else if a = 0xff02 then 0xcd else 0

/-- Memory fixture of the spec for the page-wrap abs_indirect case. -/
def mem2 : Mem := fun a => if a = 0xabff then 0x34 else if a = 0xab00 then 0x12 else 0

/-- Memory fixture of the spec for the indirect_x zero-page wraparound case. -/
def mem3 : Mem := fun a => if a = 0xff then 0x34 else if a = 0 then 0x12 else 0

/-- Concrete register file used for instance checks. -/
def r1 : Registers := ⟨200, 0, 0, 1, 0⟩

/-- Concrete register file with two positive addends that overflow signed. -/
def r2 : Registers := ⟨80, 0, 0, 0, 0⟩

end Some6502

namespace Some6502

/-- Truncating a natural number with the 0xff mask is reduction modulo 256. -/
theorem and255_eq_mod (x : Nat) : x &&& 255 = x % 256 := by
  simpa using Nat.and_pow_two_sub_one_eq_mod x 8

/-- Bit 7 of a byte is set exactly when the byte is at least 128. -/
theorem testBit7_eq {x : Nat} (hx : x < 256) : x.testBit 7 = decide (128 ≤ x) := by
  rw [Nat.testBit_to_div_mod]
  have h : (2:Nat) ^ 7 = 128 := by norm_num
  rw [h]
  exact decide_eq_decide.mpr (by omega)

/-- The sign-bit mask of an xor of two bytes vanishes exactly when the two
bytes have the same sign bit. -/
theorem xor_and128_eq_zero_iff {x y : Nat} (hx : x < 256) (hy : y < 256) :
    (x ^^^ y) &&& 128 = 0 ↔ (128 ≤ x ↔ 128 ≤ y) := by
  have h := Nat.and_two_pow (x ^^^ y) 7
  norm_num at h
  rw [h, testBit7_eq hx, testBit7_eq hy]
  by_cases p : 128 ≤ x <;> by_cases q : 128 ≤ y <;> simp [p, q]

/-- The sign-bit mask of an xor of two bytes equals 128 exactly when the two
bytes differ in their sign bit. -/
theorem xor_and128_eq_128_iff {x y : Nat} (hx : x < 256) (hy : y < 256) :
    (x ^^^ y) &&& 128 = 128 ↔ ¬(128 ≤ x ↔ 128 ≤ y) := by
  have h := Nat.and_two_pow (x ^^^ y) 7
  norm_num at h
  rw [h, testBit7_eq hx, testBit7_eq hy]
  by_cases p : 128 ≤ x <;> by_cases q : 128 ≤ y <;> simp [p, q]

/-- Masking a byte with the sign bit yields the sign bit exactly when bit 7 of
the byte is set. -/
theorem and128_beq_iff (x : Nat) :
    ((x &&& NEGATIVE_SIGN_U8 == NEGATIVE_SIGN_U8) = true) ↔ x.testBit 7 = true := by
  have h := Nat.and_two_pow x 7
  norm_num at h
  unfold NEGATIVE_SIGN_U8
  rw [h]
  cases ht : x.testBit 7 <;> simp

/-- The CARRY mask applied to the status register is the numeric carry-in:
1 when the CARRY flag is set and 0 otherwise. -/
theorem carryIn_eq (f : Nat) : f &&& CARRY = if hasFlag f CARRY then 1 else 0 := by
  unfold CARRY hasFlag
  rw [Nat.and_one_is_mod]
  rcases Nat.mod_two_eq_zero_or_one f with h | h <;> simp [h]

/-- Behaviour of the four-step flag update chain of adc_common: each of the
four written flags reads back as the boolean it was set from, the INTERRUPT,
DECIMAL and B_FLAG bits are untouched, and the result is still a byte. -/
theorem setFlag_chain_spec (f : Nat) (hf : f < 256) (b1 b2 b3 b4 : Bool) (g : Nat)
    (hg : g = setFlag (setFlag (setFlag (setFlag f CARRY b1) OVERFLOW b2) NEGATIVE b3) ZERO b4) :
    hasFlag g CARRY = b1 ∧ hasFlag g OVERFLOW = b2 ∧ hasFlag g NEGATIVE = b3 ∧
    hasFlag g ZERO = b4 ∧ g &&& INTERRUPT = f &&& INTERRUPT ∧
    g &&& DECIMAL = f &&& DECIMAL ∧ g &&& B_FLAG = f &&& B_FLAG ∧ g < 256 := by
  subst hg
  revert b1 b2 b3 b4
  interval_cases f <;> decide

end Some6502

namespace Some6502

/-- Reading through the bus always yields a byte. -/
theorem read_lt (m : Mem) (a : Nat) : read m a < 256 := by
  unfold read
  omega

/-- C6: abs_idx is 16-bit wrapping addition of the index to the address,
wrapping past 0xffff back to 0, independent of the memory contents. -/
theorem abs_idx_ok (m m2 : Mem) (address idx : Nat)
    (ha : address < 65536) (hidx : idx < 256) :
    abs_idx m address idx = (address + idx) % 65536 ∧
    abs_idx m address idx = abs_idx m2 address idx ∧
    (65536 ≤ address + idx → abs_idx m address idx = address + idx - 65536) := by
  refine ⟨rfl, rfl, fun h => ?_⟩
  simp only [abs_idx]
  omega

theorem abs_idx_ok_witness :
    abs_idx mem0 0xffff 2 = (0xffff + 2) % 65536 ∧
    abs_idx mem0 0xffff 2 = abs_idx mem1 0xffff 2 ∧
    (65536 ≤ 0xffff + 2 → abs_idx mem0 0xffff 2 = 0xffff + 2 - 65536) :=
  abs_idx_ok mem0 mem1 0xffff 2 (by decide) (by decide)

/-- C7: zero_idx is 8-bit wrapping addition, its result is always below 256,
so it never carries out of the zero page (the high byte of the result is 0). -/
theorem zero_idx_ok (m : Mem) (address idx : Nat)
    (ha : address < 256) (hidx : idx < 256) :
    zero_idx m address idx = (address + idx) % 256 ∧
    zero_idx m address idx < 256 ∧
    zero_idx m address idx / 256 = 0 := by
  refine ⟨rfl, ?_, ?_⟩ <;> simp only [zero_idx] <;> omega

theorem zero_idx_ok_witness :
    zero_idx mem0 0xff 0xff = (0xff + 0xff) % 256 ∧
    zero_idx mem0 0xff 0xff < 256 ∧
    zero_idx mem0 0xff 0xff / 256 = 0 :=
  zero_idx_ok mem0 0xff 0xff (by decide) (by decide)

/-- C3: abs_indirect combines little-endian a low byte read at the address and
a high byte read at the start of the page (address masked with 0xff00) when
the low byte of the address is 0xff, and at the next address otherwise; on the
two spec fixtures it yields 0xcdab and 0x1234. -/
theorem abs_indirect_ok :
    (∀ (m : Mem) (address : Nat),
        abs_indirect m address =
          if address % 256 = 0xff then
            read m address + 256 * read m (address &&& 0xff00)
          else
            read m address + 256 * read m (address + 1)) ∧
    abs_indirect mem1 0xff01 = 0xcdab ∧ abs_indirect mem2 0xabff = 0x1234 := by
  refine ⟨fun m address => ?_, by decide, by decide⟩
  simp only [abs_indirect, u16_from_le_bytes]
  rw [and255_eq_mod]
  split_ifs <;> rfl

/-- C5: indirect_x reads both pointer bytes inside the zero page, at the
wrapped location address+x and at its wrapped successor, and combines them
little-endian; the spec fixture yields 0x1234. -/
theorem indirect_x_ok :
    (∀ (m : Mem) (address x : Nat), address < 256 → x < 256 →
        indirect_x m address x =
          read m ((address + x) % 256) +
            256 * read m (((address + x) % 256 + 1) % 256) ∧
        (address + x) % 256 < 256 ∧ ((address + x) % 256 + 1) % 256 < 256) ∧
    indirect_x mem3 0xff 0 = 0x1234 := by
  refine ⟨fun m address x _ _ => ⟨rfl, by omega, by omega⟩, by decide⟩

theorem indirect_x_ok_witness :
    indirect_x mem0 10 20 =
      read mem0 ((10 + 20) % 256) + 256 * read mem0 (((10 + 20) % 256 + 1) % 256) ∧
    (10 + 20) % 256 < 256 ∧ ((10 + 20) % 256 + 1) % 256 < 256 :=
  indirect_x_ok.1 mem0 10 20 (by decide) (by decide)

/-- C4: indirect_y equals adding y to the little-endian pointer fetched from
the zero page, as one 16-bit wrapping addition; equivalently it agrees with
abs_idx applied to that pointer. -/
theorem indirect_y_eq_abs_idx (m : Mem) (address y : Nat)
    (ha : address < 256) (hy : y < 256) :
    indirect_y m address y =
      (read m address + 256 * read m ((address + 1) % 256) + y) % 65536 ∧
    indirect_y m address y =
      abs_idx m (read m address + 256 * read m ((address + 1) % 256)) y := by
  have hb := read_lt m address
  have hh := read_lt m ((address + 1) % 256)
  constructor <;>
  · simp only [indirect_y, u16_from_le_bytes, abs_idx]
    split_ifs <;> omega

theorem indirect_y_eq_abs_idx_witness :
    indirect_y mem3 0xfe 0x40 =
      (read mem3 0xfe + 256 * read mem3 ((0xfe + 1) % 256) + 0x40) % 65536 ∧
    indirect_y mem3 0xfe 0x40 =
      abs_idx mem3 (read mem3 0xfe + 256 * read mem3 ((0xfe + 1) % 256)) 0x40 :=
  indirect_y_eq_abs_idx mem3 0xfe 0x40 (by decide) (by decide)

/-- C9: the five derived addressing operations are total functions whose
results always fit in 16 bits, and the unchecked successor taken by
abs_indirect when the low byte of the address is not 0xff stays within the
16-bit address space. -/
theorem derived_ops_total (m : Mem) (address16 idx address8 x y : Nat)
    (h16 : address16 < 65536) (hidx : idx < 256) (h8 : address8 < 256)
    (hx : x < 256) (hy : y < 256) :
    abs_idx m address16 idx < 65536 ∧
    zero_idx m address8 idx < 65536 ∧
    abs_indirect m address16 < 65536 ∧
    indirect_x m address8 x < 65536 ∧
    indirect_y m address8 y < 65536 ∧
    (¬ address16 &&& 0xff = 0xff → address16 + 1 < 65536) := by
  refine ⟨?_, ?_, ?_, ?_, ?_, fun hne => ?_⟩
  · simp only [abs_idx]; omega
  · simp only [zero_idx]; omega
  · simp only [abs_indirect, u16_from_le_bytes]
    have h1 := read_lt m address16
    have h2 := read_lt m
      (if address16 &&& 0xff = 0xff then address16 &&& 0xff00 else address16 + 1)
    omega
  · simp only [indirect_x, u16_from_le_bytes]
    have h1 := read_lt m ((address8 + x) % 256)
    have h2 := read_lt m (((address8 + x) % 256 + 1) % 256)
    omega
  · simp only [indirect_y, u16_from_le_bytes]
    have h1 := read_lt m address8
    have h2 := read_lt m ((address8 + 1) % 256)
    split_ifs <;> omega
  · rw [and255_eq_mod] at hne
    omega

theorem derived_ops_total_witness :
    abs_idx mem0 0xfffe 0xff < 65536 ∧
    zero_idx mem0 0x80 0xff < 65536 ∧
    abs_indirect mem0 0xfffe < 65536 ∧
    indirect_x mem0 0x80 0xff < 65536 ∧
    indirect_y mem0 0x80 0xff < 65536 ∧
    (¬ 0xfffe &&& 0xff = 0xff → 0xfffe + 1 < 65536) :=
  derived_ops_total mem0 0xfffe 0xff 0x80 0xff 0xff
    (by decide) (by decide) (by decide) (by decide) (by decide)

end Some6502

namespace Some6502

/-- Signed-overflow core fact: the sign-bit test of the source holds exactly
when the two's-complement sum of the two bytes and the carry-in leaves the
signed byte range. -/
theorem overflow_bit_iff_signed (a v c : Nat) (ha : a < 256) (hv : v < 256)
    (hc : c ≤ 1) :
    ((a ^^^ v) &&& 128 = 0 ∧ (a ^^^ (a + v + c) % 256) &&& 128 = 128) ↔
      ¬(-128 ≤ toSigned a + toSigned v + (c : Int) ∧
        toSigned a + toSigned v + (c : Int) ≤ 127) := by
  rw [xor_and128_eq_zero_iff ha hv,
    xor_and128_eq_128_iff ha (Nat.mod_lt _ (by norm_num))]
  unfold toSigned
  split_ifs <;> omega

/-- C1: adc_common computes the unsigned sum of the accumulator, the operand
and the carry-in; CARRY reports the ninth bit, the accumulator receives the
sum modulo 256, NEGATIVE reports bit 7 of the new accumulator and ZERO
reports a zero accumulator, for every flags value including DECIMAL. -/
theorem adc_common_ok (r : Registers) (value : Nat)
    (ha : r.a < 256) (hv : value < 256) (hf : r.flags < 256) :
    (hasFlag (adc_common r value).flags CARRY = true ↔
      255 < r.a + value + (if hasFlag r.flags CARRY then 1 else 0)) ∧
    (adc_common r value).a =
      (r.a + value + (if hasFlag r.flags CARRY then 1 else 0)) % 256 ∧
    (hasFlag (adc_common r value).flags NEGATIVE = true ↔
      (adc_common r value).a.testBit 7 = true) ∧
    (hasFlag (adc_common r value).flags ZERO = true ↔ (adc_common r value).a = 0) := by
  have hc := carryIn_eq r.flags
  obtain ⟨h1, h2, h3, h4, -, -, -, -⟩ :=
    setFlag_chain_spec r.flags hf _ _ _ _ ((adc_common r value).flags) rfl
  refine ⟨?_, ?_, ?_, ?_⟩
  · rw [h1, ← hc]
    simp
  · have e : (adc_common r value).a = (r.a + value + (r.flags &&& CARRY)) &&& 255 := rfl
    rw [e, and255_eq_mod, hc]
  · rw [h3]
    exact and128_beq_iff ((adc_common r value).a)
  · rw [h4]
    simp [adc_common]

theorem adc_common_ok_witness :
    (hasFlag (adc_common r1 100).flags CARRY = true ↔
      255 < r1.a + 100 + (if hasFlag r1.flags CARRY then 1 else 0)) ∧
    (adc_common r1 100).a =
      (r1.a + 100 + (if hasFlag r1.flags CARRY then 1 else 0)) % 256 ∧
    (hasFlag (adc_common r1 100).flags NEGATIVE = true ↔
      (adc_common r1 100).a.testBit 7 = true) ∧
    (hasFlag (adc_common r1 100).flags ZERO = true ↔ (adc_common r1 100).a = 0) :=
  adc_common_ok r1 100 (by decide) (by decide) (by decide)

/-- C2: after adc_common the OVERFLOW flag is exactly the source's sign-bit
test on the original accumulator, the operand and the truncated sum, and that
test holds exactly when the two's-complement sum of accumulator, operand and
carry-in lies outside the signed range from -128 to 127. -/
theorem adc_common_overflow_ok (r : Registers) (value : Nat)
    (ha : r.a < 256) (hv : value < 256) (hf : r.flags < 256) :
    (hasFlag (adc_common r value).flags OVERFLOW = true ↔
      ((r.a ^^^ value) &&& 128 = 0 ∧
        (r.a ^^^ (r.a + value + (if hasFlag r.flags CARRY then 1 else 0)) % 256)
          &&& 128 = 128)) ∧
    (((r.a ^^^ value) &&& 128 = 0 ∧
        (r.a ^^^ (r.a + value + (if hasFlag r.flags CARRY then 1 else 0)) % 256)
          &&& 128 = 128) ↔
      ¬(-128 ≤ toSigned r.a + toSigned value +
          (if hasFlag r.flags CARRY then (1:Int) else 0) ∧
        toSigned r.a + toSigned value +
          (if hasFlag r.flags CARRY then (1:Int) else 0) ≤ 127)) := by
  have hc := carryIn_eq r.flags
  obtain ⟨-, h2, -, -, -, -, -, -⟩ :=
    setFlag_chain_spec r.flags hf _ _ _ _ ((adc_common r value).flags) rfl
  constructor
  · rw [h2, ← hc, ← and255_eq_mod]
    simp [NEGATIVE_SIGN_U8]
  · cases hB : hasFlag r.flags CARRY
    · simpa [hB] using overflow_bit_iff_signed r.a value 0 ha hv (by omega)
    · simpa [hB] using overflow_bit_iff_signed r.a value 1 ha hv (by omega)

theorem adc_common_overflow_ok_witness :
    (hasFlag (adc_common r2 80).flags OVERFLOW = true ↔
      ((r2.a ^^^ 80) &&& 128 = 0 ∧
        (r2.a ^^^ (r2.a + 80 + (if hasFlag r2.flags CARRY then 1 else 0)) % 256)
          &&& 128 = 128)) ∧
    (((r2.a ^^^ 80) &&& 128 = 0 ∧
        (r2.a ^^^ (r2.a + 80 + (if hasFlag r2.flags CARRY then 1 else 0)) % 256)
          &&& 128 = 128) ↔
      ¬(-128 ≤ toSigned r2.a + toSigned 80 +
          (if hasFlag r2.flags CARRY then (1:Int) else 0) ∧
        toSigned r2.a + toSigned 80 +
          (if hasFlag r2.flags CARRY then (1:Int) else 0) ≤ 127)) :=
  adc_common_overflow_ok r2 80 (by decide) (by decide) (by decide)

/-- C8: each addressing-mode variant of ADC resolves one operand byte with
its addressing operation and delegates to adc_common, with the index
registers read before any mutation. -/
theorem adc_variants_delegate (s : Machine) (value a8 a16 : Nat) :
    Machine.adc_imm s value = Machine.adc_common s value ∧
    Machine.adc_zero s a8 = Machine.adc_common s (read s.mem a8) ∧
    Machine.adc_zero_x s a8 =
      Machine.adc_common s (read s.mem (zero_idx s.mem a8 s.regs.x)) ∧
    Machine.adc_abs s a16 = Machine.adc_common s (read s.mem a16) ∧
    Machine.adc_abs_x s a16 =
      Machine.adc_common s (read s.mem (abs_idx s.mem a16 s.regs.x)) ∧
    Machine.adc_abs_y s a16 =
      Machine.adc_common s (read s.mem (abs_idx s.mem a16 s.regs.y)) ∧
    Machine.adc_ind_x s a8 =
      Machine.adc_common s (read s.mem (indirect_x s.mem a8 s.regs.x)) ∧
    Machine.adc_ind_y s a8 =
      Machine.adc_common s (read s.mem (indirect_y s.mem a8 s.regs.y)) :=
  ⟨rfl, rfl, rfl, rfl, rfl, rfl, rfl, rfl⟩

/-- Frame of the register-file action of adc_common. -/
theorem adc_frame (r : Registers) (value : Nat) (hf : r.flags < 256) :
    FramePreserved r (adc_common r value) := by
  obtain ⟨-, -, -, -, h5, h6, h7, -⟩ :=
    setFlag_chain_spec r.flags hf _ _ _ _ ((adc_common r value).flags) rfl
  exact ⟨rfl, rfl, rfl, h5, h6, h7⟩

/-- C10: every ADC operation leaves X, Y, the program counter and all memory
contents unchanged and preserves the INTERRUPT, DECIMAL and B_FLAG status
bits; only CARRY, ZERO, OVERFLOW, NEGATIVE and the accumulator may change. -/
theorem adc_frame_ok (s : Machine) (value a8 a16 : Nat)
    (hf : s.regs.flags < 256) :
    FramePreserved s.regs (adc_common s.regs value) ∧
    MachineFramePreserved s (Machine.adc_imm s value) ∧
    MachineFramePreserved s (Machine.adc_zero s a8) ∧
    MachineFramePreserved s (Machine.adc_zero_x s a8) ∧
    MachineFramePreserved s (Machine.adc_abs s a16) ∧
    MachineFramePreserved s (Machine.adc_abs_x s a16) ∧
    MachineFramePreserved s (Machine.adc_abs_y s a16) ∧
    MachineFramePreserved s (Machine.adc_ind_x s a8) ∧
    MachineFramePreserved s (Machine.adc_ind_y s a8) :=
  ⟨adc_frame _ _ hf,
    ⟨adc_frame _ _ hf, rfl⟩, ⟨adc_frame _ _ hf, rfl⟩, ⟨adc_frame _ _ hf, rfl⟩,
    ⟨adc_frame _ _ hf, rfl⟩, ⟨adc_frame _ _ hf, rfl⟩, ⟨adc_frame _ _ hf, rfl⟩,
    ⟨adc_frame _ _ hf, rfl⟩, ⟨adc_frame _ _ hf, rfl⟩⟩

theorem adc_frame_ok_witness :
    FramePreserved (Machine.mk r1 mem0).regs (adc_common (Machine.mk r1 mem0).regs 9) ∧
    MachineFramePreserved (Machine.mk r1 mem0) (Machine.adc_imm (Machine.mk r1 mem0) 9) ∧
    MachineFramePreserved (Machine.mk r1 mem0) (Machine.adc_zero (Machine.mk r1 mem0) 3) ∧
    MachineFramePreserved (Machine.mk r1 mem0) (Machine.adc_zero_x (Machine.mk r1 mem0) 3) ∧
    MachineFramePreserved (Machine.mk r1 mem0) (Machine.adc_abs (Machine.mk r1 mem0) 7) ∧
    MachineFramePreserved (Machine.mk r1 mem0) (Machine.adc_abs_x (Machine.mk r1 mem0) 7) ∧
    MachineFramePreserved (Machine.mk r1 mem0) (Machine.adc_abs_y (Machine.mk r1 mem0) 7) ∧
    MachineFramePreserved (Machine.mk r1 mem0) (Machine.adc_ind_x (Machine.mk r1 mem0) 3) ∧
    MachineFramePreserved (Machine.mk r1 mem0) (Machine.adc_ind_y (Machine.mk r1 mem0) 3) :=
  adc_frame_ok (Machine.mk r1 mem0) 9 3 7 (by decide)

end Some6502
